/-
  Verification of the PresetPreferenceGenerator core against its source.

  Shallow embedding conventions:
  * C++ `float` values are modelled as exact rationals (ℚ); all the
    properties verified here are structural (branch selection, state
    framing, exact constants), so they hold identically in exact
    arithmetic and in IEEE single precision.
  * `std::vector<float>` is modelled as `List ℚ`; indexed reads become
    `List.getD`, indexed writes become `List.set`.
  * `juce::Random` streams are modelled as an explicit draw function
    `ℕ → ℚ` together with a cursor, consumed in program order.
  * `std::exp` is modelled as an arbitrary function `E : ℚ → ℚ`; the only
    fact any theorem needs about it is `E 0 = 1`, which holds exactly for
    the C library `expf` as well.
-/
import Mathlib

namespace PPG

/-! ## Definitions -/

/-! ### GenomeConstraints (src/Source/GA/GenomeConstraints.cpp / .h) -/

/-- Parameter index `FilterFreq = 2` from `GenomeConstraints::ParamIndex`. -/
def FilterFreq : ℕ := 2

/-- Parameter index `FilterEnv = 4` from `GenomeConstraints::ParamIndex`. -/
def FilterEnv : ℕ := 4

/-- `constexpr float envWeight = 0.7f` in `GenomeConstraints::repair`. -/
def envWeight : ℚ := 7/10

/-- `constexpr float minAudibility = 0.35f` in `GenomeConstraints::repair`. -/
def minAudibility : ℚ := 7/20

/-- `GenomeConstraints::repair` (GenomeConstraints.cpp lines 15–45),
translated clause by clause; the in-place mutation of `genome[FilterEnv]`
becomes `List.set`. -/
def repair (genome : List ℚ) : List ℚ :=
  if genome.length ≤ FilterEnv then genome
  else
    let filterFreq := genome.getD FilterFreq 0
    let filterEnv := genome.getD FilterEnv 0
    let positiveEnvContribution := max 0 ((filterEnv - 1/2) * 2)
    let audibilityScore := filterFreq + positiveEnvContribution * envWeight
    if audibilityScore < minAudibility then
      let deficit := minAudibility - filterFreq
      let requiredPositiveEnv := deficit / envWeight
      let requiredFilterEnv := 1/2 + requiredPositiveEnv / 2
      genome.set FilterEnv (min 1 requiredFilterEnv)
    else genome

/-- The value `repair` writes at `FilterEnv` when the audibility branch is
taken; it depends only on the (unchanged) `FilterFreq` entry. -/
def repairedEnvValue (filterFreq : ℚ) : ℚ :=
  min 1 (1/2 + (minAudibility - filterFreq) / envWeight / 2)

/-! ### Individual (src/unnamed/part_006 = Individual.h) -/

/-- `class Individual`: parameter vector, fitness scalar, evaluated flag. -/
structure Individual where
  parameters : List ℚ
  fitness : ℚ
  evaluated : Bool
deriving DecidableEq, Repr

/-- `juce::jlimit(lower, upper, value)`: clamp `value` into `[lower, upper]`. -/
def jlimit (lower upper value : ℚ) : ℚ :=
  if value < lower then lower else if upper < value then upper else value

/-! ### UniformMutation (src/unnamed/part_012 = MutationOperators.cpp) -/

/-- The per-parameter loop of `UniformMutation::operator()`: walks the
parameter vector consuming RNG draws (`rng k` is the k-th `nextFloat()`
call, one draw for the rate gate and, when the gate fires, one more for
the perturbation), and returns the rewritten parameters together with the
`mutated` flag. -/
def mutateParams (rate strength : ℚ) (rng : ℕ → ℚ) :
    List ℚ → ℕ → List ℚ × Bool
  | [], _ => ([], false)
  | p :: ps, k =>
    if rng k < rate then
      let perturbation := (rng (k+1) * 2 - 1) * strength
      let newValue := p + perturbation
      let rest := mutateParams rate strength rng ps (k+2)
      (jlimit 0 1 newValue :: rest.1, true)
    else
      let rest := mutateParams rate strength rng ps (k+1)
      (p :: rest.1, rest.2)

/-- `UniformMutation::operator()(Individual&, juce::Random&)`
(MutationOperators.cpp lines 14–41): rewrite the parameters in place and
call `invalidateFitness()` iff the `mutated` flag was set. -/
def uniformMutation (rate strength : ℚ) (rng : ℕ → ℚ) (ind : Individual) :
    Individual :=
  let res := mutateParams rate strength rng ind.parameters 0
  { parameters := res.1
    fitness := ind.fitness
    evaluated := if res.2 then false else ind.evaluated }

/-! ### Population statistics (src/Source/GA/Population.cpp) -/

/-- `FLT_MAX`, the value of `std::numeric_limits<float>::max()`. -/
def fltMax : ℚ := (2^128 : ℚ) - 2^104

/-- Result of `Population::updateStatistics`: the cached `bestIndex`,
`cachedAvgFitness` and `cachedWorstFitness`. -/
structure Stats where
  bestIndex : ℤ
  avgFitness : ℚ
  worstFitness : ℚ
deriving DecidableEq, Repr

/-- Accumulator of the scan loop in `Population::updateStatistics`:
`(bestFitness, bestIndex, worstFitness, sumFitness, evaluatedCount)`. -/
structure StatsAcc where
  bestFitness : ℚ
  bestIndex : ℤ
  worstFitness : ℚ
  sumFitness : ℚ
  evaluatedCount : ℕ
deriving DecidableEq, Repr

/-- One trip of the `for` loop body in `Population::updateStatistics`,
processing `individuals[i]` (only evaluated individuals contribute). -/
def statsStep (acc : StatsAcc) (entry : ℕ × Individual) : StatsAcc :=
  if entry.2.evaluated then
    { bestFitness := if entry.2.fitness > acc.bestFitness then entry.2.fitness else acc.bestFitness
      bestIndex := if entry.2.fitness > acc.bestFitness then (entry.1 : ℤ) else acc.bestIndex
      worstFitness := if entry.2.fitness < acc.worstFitness then entry.2.fitness else acc.worstFitness
      sumFitness := acc.sumFitness + entry.2.fitness
      evaluatedCount := acc.evaluatedCount + 1 }
  else acc

/-- `Population::updateStatistics` (Population.cpp lines 128–171) as a pure
function from the individuals vector to the cached statistics. -/
def updateStatistics (individuals : List Individual) : Stats :=
  if individuals.isEmpty then
    { bestIndex := -1, avgFitness := 0, worstFitness := 0 }
  else
    let acc := individuals.enum.foldl statsStep
      { bestFitness := -fltMax, bestIndex := -1, worstFitness := fltMax
        sumFitness := 0, evaluatedCount := 0 }
    { bestIndex := acc.bestIndex
      avgFitness := if acc.evaluatedCount > 0 then acc.sumFitness / acc.evaluatedCount else 0
      worstFitness := if acc.evaluatedCount > 0 then acc.worstFitness else 0 }

/-- The `(index, fitness)` pairs of the evaluated individuals, in scan
order — the only data `updateStatistics` actually reads. -/
def indexedEvaluated (individuals : List Individual) : List (ℕ × ℚ) :=
  (individuals.enum.filter (fun p => p.2.evaluated)).map (fun p => (p.1, p.2.fitness))

/-- Spec-side recombination of the statistics loop restricted to the
evaluated `(index, fitness)` pairs; used to state that unevaluated
individuals never contribute. -/
def pairStep (acc : StatsAcc) (p : ℕ × ℚ) : StatsAcc :=
  { bestFitness := if p.2 > acc.bestFitness then p.2 else acc.bestFitness
    bestIndex := if p.2 > acc.bestFitness then (p.1 : ℤ) else acc.bestIndex
    worstFitness := if p.2 < acc.worstFitness then p.2 else acc.worstFitness
    sumFitness := acc.sumFitness + p.2
    evaluatedCount := acc.evaluatedCount + 1 }

/-- The initial accumulator of the `updateStatistics` scan. -/
def initStatsAcc : StatsAcc :=
  { bestFitness := -fltMax, bestIndex := -1, worstFitness := fltMax
    sumFitness := 0, evaluatedCount := 0 }

/-- Statistics computed from the evaluated `(index, fitness)` pairs alone. -/
def statsFromPairs (pairs : List (ℕ × ℚ)) : Stats :=
  let acc := pairs.foldl pairStep initStatsAcc
  { bestIndex := acc.bestIndex
    avgFitness := if acc.evaluatedCount > 0 then acc.sumFitness / acc.evaluatedCount else 0
    worstFitness := if acc.evaluatedCount > 0 then acc.worstFitness else 0 }

/-! ### MLP (src/unnamed/part_010 = MLP.cpp)

The source class fixes `INPUT_SIZE` and `HIDDEN_SIZE` as compile-time
constants; the embedding carries them as fields so every theorem holds for
whatever constants the build chose.  `std::exp` inside `sigmoid` is an
arbitrary function parameter `E`. -/

/-- The learnable state, Adam state and forward-pass caches of `class MLP`. -/
structure MLP where
  inputSize : ℕ
  hiddenSize : ℕ
  weightsIH : List ℚ
  biasH : List ℚ
  weightsHO : List ℚ
  biasO : ℚ
  mIH : List ℚ
  vIH : List ℚ
  mBiasH : List ℚ
  vBiasH : List ℚ
  mHO : List ℚ
  vHO : List ℚ
  mBiasO : ℚ
  vBiasO : ℚ
  timestep : ℤ
  zHidden : List ℚ
  aHidden : List ℚ
  zOutput : ℚ
  aOutput : ℚ
deriving DecidableEq, Repr

/-- `static float relu(float x) { return x > 0.0f ? x : 0.0f; }`. -/
def relu (x : ℚ) : ℚ := if x > 0 then x else 0

/-- `static float sigmoid(float x) { return 1.0f / (1.0f + std::exp(-x)); }`
with `std::exp` abstracted as `E`. -/
def sigmoid (E : ℚ → ℚ) (x : ℚ) : ℚ := 1 / (1 + E (-x))

/-- The hidden-layer pre-activations of `MLP::predict`: for each `j`,
`biasH[j] + Σᵢ input[i] * weightsIH[i * HIDDEN_SIZE + j]`. -/
def forwardHiddenZ (inputSize hiddenSize : ℕ) (weightsIH biasH input : List ℚ) :
    List ℚ :=
  (List.range hiddenSize).map (fun j =>
    biasH.getD j 0 +
      ((List.range inputSize).map
        (fun i => input.getD i 0 * weightsIH.getD (i * hiddenSize + j) 0)).sum)

/-- `MLP::predict` (MLP.cpp lines 157–179): forward pass returning the
output activation together with the object state whose backprop caches
(`zHidden`, `aHidden`, `zOutput`, `aOutput`) have been overwritten. -/
def MLP.predict (E : ℚ → ℚ) (m : MLP) (input : List ℚ) : ℚ × MLP :=
  let zH := forwardHiddenZ m.inputSize m.hiddenSize m.weightsIH m.biasH input
  let aH := zH.map relu
  let zO := m.biasO +
    ((List.range m.hiddenSize).map (fun j => aH.getD j 0 * m.weightsHO.getD j 0)).sum
  let aO := sigmoid E zO
  (aO, { m with zHidden := zH, aHidden := aH, zOutput := zO, aOutput := aO })

/-- The `MLP` constructor followed by `MLP::initializeWeights`
(MLP.cpp lines 115–155): the input→hidden weights take the Xavier-uniform
draws (modelled as the stream `xavierDraws`), the hidden→output weights and
all biases are zero, the Adam moments and the timestep are zero, and the
cached output activation starts at 0.5. -/
def freshMLP (inputSize hiddenSize : ℕ) (xavierDraws : List ℚ) : MLP :=
  { inputSize := inputSize
    hiddenSize := hiddenSize
    weightsIH := (List.range (inputSize * hiddenSize)).map (fun i => xavierDraws.getD i 0)
    biasH := List.replicate hiddenSize 0
    weightsHO := List.replicate hiddenSize 0
    biasO := 0
    mIH := List.replicate (inputSize * hiddenSize) 0
    vIH := List.replicate (inputSize * hiddenSize) 0
    mBiasH := List.replicate hiddenSize 0
    vBiasH := List.replicate hiddenSize 0
    mHO := List.replicate hiddenSize 0
    vHO := List.replicate hiddenSize 0
    mBiasO := 0
    vBiasO := 0
    timestep := 0
    zHidden := List.replicate hiddenSize 0
    aHidden := List.replicate hiddenSize 0
    zOutput := 0
    aOutput := 1/2 }

/-- `MLP::getWeightCount` (MLP.cpp lines 247–253):
`base = IH + H + H + 1`, plus Adam `m`/`v` copies, plus the timestep. -/
def MLP.getWeightCount (m : MLP) : ℕ :=
  let baseCount := m.inputSize * m.hiddenSize + m.hiddenSize + m.hiddenSize + 1
  let adamCount := 2 * (m.inputSize * m.hiddenSize + m.hiddenSize + m.hiddenSize + 1)
  baseCount + adamCount + 1

/-- `MLP::getWeights` (MLP.cpp lines 255–280): flat serialization in the
order weights, biases, Adam first moments, Adam second moments, timestep. -/
def MLP.getWeights (m : MLP) : List ℚ :=
  m.weightsIH ++ (m.biasH ++ (m.weightsHO ++ ([m.biasO] ++
    (m.mIH ++ (m.mBiasH ++ (m.mHO ++ ([m.mBiasO] ++
      (m.vIH ++ (m.vBiasH ++ (m.vHO ++ ([m.vBiasO] ++
        [(m.timestep : ℚ)])))))))))))

/-- `static_cast<int>` applied to a float value: truncation toward zero. -/
def ratTruncToInt (q : ℚ) : ℤ := if 0 ≤ q then ⌊q⌋ else -⌊-q⌋

/-- `MLP::setWeights` (MLP.cpp lines 282–327): reject on a length mismatch
(before any mutation), otherwise consume the vector sequentially.  The
source reads `weights[idx++]` into fixed-size loops; with the validated
total length those reads are exactly the successive segments taken here. -/
def MLP.setWeights (m : MLP) (w : List ℚ) : Bool × MLP :=
  if w.length ≠ m.getWeightCount then (false, m)
  else
    let n := m.inputSize * m.hiddenSize
    let h := m.hiddenSize
    let weightsIH := w.take n
    let r1 := w.drop n
    let biasH := r1.take h
    let r2 := r1.drop h
    let weightsHO := r2.take h
    let r3 := r2.drop h
    let biasO := r3.getD 0 0
    let r4 := r3.drop 1
    let mIH := r4.take n
    let r5 := r4.drop n
    let mBiasH := r5.take h
    let r6 := r5.drop h
    let mHO := r6.take h
    let r7 := r6.drop h
    let mBiasO := r7.getD 0 0
    let r8 := r7.drop 1
    let vIH := r8.take n
    let r9 := r8.drop n
    let vBiasH := r9.take h
    let r10 := r9.drop h
    let vHO := r10.take h
    let r11 := r10.drop h
    let vBiasO := r11.getD 0 0
    let r12 := r11.drop 1
    let timestep := ratTruncToInt (r12.getD 0 0)
    (true, { m with
      weightsIH := weightsIH, biasH := biasH, weightsHO := weightsHO, biasO := biasO
      mIH := mIH, mBiasH := mBiasH, mHO := mHO, mBiasO := mBiasO
      vIH := vIH, vBiasH := vBiasH, vHO := vHO, vBiasO := vBiasO
      timestep := timestep })

/-- The class invariant of `MLP`: every vector member has the length the
constructor gave it. -/
def MLP.WellFormed (m : MLP) : Prop :=
  m.weightsIH.length = m.inputSize * m.hiddenSize ∧
  m.biasH.length = m.hiddenSize ∧
  m.weightsHO.length = m.hiddenSize ∧
  m.mIH.length = m.inputSize * m.hiddenSize ∧
  m.mBiasH.length = m.hiddenSize ∧
  m.mHO.length = m.hiddenSize ∧
  m.vIH.length = m.inputSize * m.hiddenSize ∧
  m.vBiasH.length = m.hiddenSize ∧
  m.vHO.length = m.hiddenSize

/-! ### AudioFeatureCache (AudioFeatureCache.cpp, embedded in
src/Tests/IntegrationTests.cpp, and src/Source/GA/AudioFeatureCache.h)

The source keeps three synchronized containers: `cache` (hash → features),
`lruOrder` (a list of hashes, most recently used at the front) and `lruMap`
(hash → list iterator).  Since they always hold exactly the same key set,
the trio is modelled as one association list in recency order, front =
most recently used.  `hashGenome` and the external render/extract
collaborator are abstract function parameters. -/

/-- `static constexpr size_t maxCacheSize = 128` (AudioFeatureCache.h). -/
def maxCacheSize : ℕ := 128

/-- The synchronized cache/LRU state of `AudioFeatureCache`. -/
structure CacheState where
  entries : List (ℕ × List ℚ)
deriving DecidableEq, Repr

/-- `cache.find(hash)`. -/
def lookupCache (k : ℕ) (entries : List (ℕ × List ℚ)) : Option (List ℚ) :=
  (entries.find? (fun e => e.1 == k)).map (fun e => e.2)

/-- `AudioFeatureCache::evictLRU`: drop the back of `lruOrder` (the least
recently used key) and erase it from `cache`/`lruMap`; a no-op when empty. -/
def evictLRU (st : CacheState) : CacheState :=
  ⟨st.entries.dropLast⟩

/-- `AudioFeatureCache::getFeatures`: on a hit move the key to the front of
the LRU order and return the stored vector; on a miss extract, evict the
least-recently-used entry if at capacity, and insert at the front. -/
def getFeatures (hash : List ℚ → ℕ) (extract : List ℚ → List ℚ)
    (st : CacheState) (genome : List ℚ) : List ℚ × CacheState :=
  let k := hash genome
  match lookupCache k st.entries with
  | some v => (v, ⟨(k, v) :: st.entries.eraseP (fun e => e.1 == k)⟩)
  | none =>
    let features := extract genome
    let st1 := if st.entries.length ≥ maxCacheSize then evictLRU st else st
    (features, ⟨(k, features) :: st1.entries⟩)

/-- A sequence of `getFeatures` calls, threading the cache state. -/
def runGetFeatures (hash : List ℚ → ℕ) (extract : List ℚ → List ℚ)
    (st : CacheState) (gs : List (List ℚ)) : CacheState :=
  gs.foldl (fun s g => (getFeatures hash extract s g).2) st

/-! ### GeneticAlgorithm steady-state loop (src/Source/GA/GeneticAlgorithm.cpp,
second `run()` definition, lines 479–628) -/

/-- Ordering used by the replacement sort: `a.second < b.second` ascending. -/
instance : IsTrans (ℕ × ℚ) (fun a b => a.2 ≤ b.2) :=
  ⟨fun _ _ _ hab hbc => le_trans hab hbc⟩

instance : IsTotal (ℕ × ℚ) (fun a b => a.2 ≤ b.2) :=
  ⟨fun a b => le_total a.2 b.2⟩

/-- Number of evaluated individuals in a population. -/
def evaluatedCount (pop : List Individual) : ℕ :=
  (pop.filter (fun i => i.evaluated)).length

/-- The `indexedFitness` vector of the replacement block, sorted ascending
by fitness (`std::sort` with comparator `a.second < b.second`).  The scan
producing `indexedFitness` is the same evaluated-only scan as
`indexedEvaluated`. -/
def sortedEvaluatedIndices (pop : List Individual) : List (ℕ × ℚ) :=
  (indexedEvaluated pop).insertionSort (fun a b => a.2 ≤ b.2)

/-- The replacement loop `population->replace(indexedFitness[i].first,
offspring[i])` for `i < numToReplace`, as a fold of `List.set` over
(slot, offspring) pairs. -/
def overwriteSlots (pop : List Individual) (pairs : List (ℕ × Individual)) :
    List Individual :=
  pairs.foldl (fun acc pr => acc.set pr.1 pr.2) pop

/-- The replacement block of the steady-state loop (GeneticAlgorithm.cpp
lines 567–598): when the offspring batch is non-empty, collect the indices
of the evaluated individuals, sort ascending by fitness, overwrite the
worst `min(|offspring|, |evaluated|)` slots with the offspring in order,
and mark the statistics dirty (the returned flag). -/
def replacementStep (pop offspring : List Individual) : List Individual × Bool :=
  if offspring.isEmpty then (pop, false)
  else
    let sorted := sortedEvaluatedIndices pop
    let numToReplace := min offspring.length sorted.length
    let pairs := List.zip ((sorted.take numToReplace).map Prod.fst)
      (offspring.take numToReplace)
    (overwriteSlots pop pairs, true)

/-- The mailbox `ParameterBridge` (src/unnamed/part_009): a single slot
holding at most one unread candidate. -/
structure Bridge where
  slot : Option (List ℚ × ℚ)
deriving DecidableEq, Repr

/-- `ParameterBridge::hasData`: the readiness flag. -/
def Bridge.hasData (b : Bridge) : Bool := b.slot.isSome

/-- `ParameterBridge::push`: overwrite the pending candidate. -/
def Bridge.push (b : Bridge) (params : List ℚ) (fitness : ℚ) : Bridge :=
  ⟨some (params, fitness)⟩

/-- `std::max_element` over the offspring with comparator
`a.getFitness() < b.getFitness()`: first maximum wins; `none` on empty. -/
def maxElement : List Individual → Option Individual
  | [] => none
  | x :: xs => some (xs.foldl (fun best c => if best.fitness < c.fitness then c else best) x)

/-- How one trip of the steady-state `while` body ended. -/
inductive IterOutcome where
  | waitedPause
  | waitedBackoff
  | exited
  | completed
deriving DecidableEq, Repr

/-- Observable effect of one trip of the steady-state `while` body. -/
structure IterResult where
  outcome : IterOutcome
  offspringProduced : ℕ
  pushed : Bool
  population : List Individual
  bridge : Bridge
deriving DecidableEq, Repr

/-- One trip of the steady-state loop body (GeneticAlgorithm.cpp lines
484–628).  The atomic-flag reads (`paused.load()`, the `threadShouldExit()`
checks before and after the generation phase) are explicit boolean
parameters; the offspring-generation phase — selection, crossover,
mutation, evaluation — is abstracted as the batch it would produce, since
every property verified here concerns the control flow around it.  Both
timed waits (`pauseEvent.wait(100)`) end the trip with `continue`. -/
def gaIteration (paused exitB exitC exitAfterGen : Bool)
    (offspringBatch : List Individual) (pop : List Individual) (bridge : Bridge) :
    IterResult :=
  if paused then ⟨.waitedPause, 0, false, pop, bridge⟩
  else if exitB then ⟨.exited, 0, false, pop, bridge⟩
  else if exitC then ⟨.exited, 0, false, pop, bridge⟩
  else if bridge.hasData then ⟨.waitedBackoff, 0, false, pop, bridge⟩
  else if exitAfterGen then ⟨.exited, offspringBatch.length, false, pop, bridge⟩
  else
    let repl := replacementStep pop offspringBatch
    match maxElement offspringBatch with
    | some best =>
      ⟨.completed, offspringBatch.length, true, repl.1,
        bridge.push best.parameters best.fitness⟩
    | none => ⟨.completed, offspringBatch.length, false, repl.1, bridge⟩

/-! ## Theorems -/

/-! ### GenomeConstraints lemmas -/

lemma repair_of_short {g : List ℚ} (h : g.length ≤ FilterEnv) : repair g = g := by
  simp [repair, h]

lemma length_repair (g : List ℚ) : (repair g).length = g.length := by
  unfold repair
  dsimp only
  split
  · rfl
  · split <;> simp

lemma repair_eq_set_or_id (g : List ℚ) :
    repair g = g ∨
      (FilterEnv < g.length ∧ repair g = g.set FilterEnv (repairedEnvValue (g.getD FilterFreq 0))) := by
  unfold repair
  dsimp only
  split
  · exact Or.inl rfl
  · split
    · refine Or.inr ⟨by omega, rfl⟩
    · exact Or.inl rfl

lemma getElem?_repair_ne (g : List ℚ) (j : ℕ) (hj : j ≠ FilterEnv) :
    (repair g)[j]? = g[j]? := by
  rcases repair_eq_set_or_id g with h | ⟨_, h⟩
  · rw [h]
  · rw [h, List.getElem?_set_ne (Ne.symm hj)]

/-- Claim C4: the genome-repair pass is idempotent: `repair (repair G) = repair G`
for every genome `G`.  The value written at `FilterEnv` is a function of the
(unchanged) `FilterFreq` entry alone, so a second pass either takes the same
branch and writes the identical value, or takes no branch at all. -/
theorem repair_idempotent (g : List ℚ) : repair (repair g) = repair g := by
  rcases repair_eq_set_or_id g with h | ⟨hlen, h⟩
  · rw [h]; exact h
  · rw [h]
    rcases repair_eq_set_or_id (g.set FilterEnv (repairedEnvValue (g.getD FilterFreq 0))) with
      h2 | ⟨_, h2⟩
    · exact h2
    · rw [h2]
      have hfreq : (g.set FilterEnv (repairedEnvValue (g.getD FilterFreq 0))).getD FilterFreq 0 =
          g.getD FilterFreq 0 := by
        simp [List.getD, List.getElem?_set_ne (by decide : FilterEnv ≠ FilterFreq)]
      rw [hfreq, List.set_set]

/-- Claim C10: the repair pass touches at most entry 4 (`FilterEnv`): the
genome's length is preserved, every entry at an index other than 4 is
unchanged, and a genome with 4 or fewer entries is returned entirely
unchanged. -/
theorem repair_frame (g : List ℚ) :
    (repair g).length = g.length ∧
    (∀ j : ℕ, j ≠ 4 → (repair g)[j]? = g[j]?) ∧
    (g.length ≤ 4 → repair g = g) := by
  refine ⟨length_repair g, ?_, ?_⟩
  · intro j hj
    exact getElem?_repair_ne g j hj
  · intro hlen
    exact repair_of_short hlen

/-- Witness for claim C10 at a concrete genome: an entry other than
`FilterEnv` is untouched, and a length-3 genome passes through unchanged. -/
theorem repair_frame_witness :
    (repair [0, 0, 0, 0, 0])[1]? = ([0, 0, 0, 0, 0] : List ℚ)[1]? ∧
      repair [0, 0, 0] = [0, 0, 0] :=
  ⟨(repair_frame [0, 0, 0, 0, 0]).2.1 1 (by decide),
   (repair_frame [0, 0, 0]).2.2 (by decide)⟩

/-! ### UniformMutation lemmas (C8) -/

lemma mutateParams_flag_false_id (rate strength : ℚ) (rng : ℕ → ℚ) :
    ∀ (ps : List ℚ) (k : ℕ),
      (mutateParams rate strength rng ps k).2 = false →
      (mutateParams rate strength rng ps k).1 = ps := by
  intro ps
  induction ps with
  | nil => intro k _; rfl
  | cons p ps ih =>
    intro k h
    by_cases hc : rng k < rate
    · simp [mutateParams, hc] at h
    · simp only [mutateParams, if_neg hc] at h ⊢
      rw [ih (k+1) h]

/-- Counterexample to claim C8: the claim "uniform mutation invalidates fitness
only if at least one parameter changed value" fails on the code: with a
single parameter at 1.0, rate 0.1 and strength 0.2 (the operator defaults),
an RNG whose first draw is 0 (gate fires) and second draw is 0.9 produces
the perturbation +0.16, which is clamped back to 1.0 — no parameter value
changes, yet the `mutated` flag is set and the evaluated flag is cleared. -/
theorem uniformMutation_counterexample :
    (uniformMutation (1/10) (1/5) (fun k => if k = 0 then 0 else 9/10)
        ⟨[1], 1/2, true⟩).parameters = (⟨[1], 1/2, true⟩ : Individual).parameters ∧
    (uniformMutation (1/10) (1/5) (fun k => if k = 0 then 0 else 9/10)
        ⟨[1], 1/2, true⟩).evaluated ≠ (⟨[1], 1/2, true⟩ : Individual).evaluated := by
  constructor
  · norm_num [uniformMutation, mutateParams, jlimit]
  · norm_num [uniformMutation, mutateParams, jlimit]

/-- Claim C8 as amended: uniform mutation invalidates fitness iff at least one
parameter was selected for perturbation by the rate gate — a perturbation
clamped back to the original value still invalidates.  If no parameter was
selected, the individual (parameters, fitness and evaluated flag) is left
entirely unchanged; and whenever a parameter value did change, the fitness
is invalidated. -/
theorem uniformMutation_invalidation (rate strength : ℚ) (rng : ℕ → ℚ)
    (ind : Individual) :
    ((mutateParams rate strength rng ind.parameters 0).2 = false →
        uniformMutation rate strength rng ind = ind) ∧
    ((mutateParams rate strength rng ind.parameters 0).2 = true →
        (uniformMutation rate strength rng ind).evaluated = false) ∧
    ((uniformMutation rate strength rng ind).parameters ≠ ind.parameters →
        (uniformMutation rate strength rng ind).evaluated = false) := by
  refine ⟨?_, ?_, ?_⟩
  · intro h
    unfold uniformMutation
    have hp := mutateParams_flag_false_id rate strength rng ind.parameters 0 h
    simp [h, hp]
  · intro h
    unfold uniformMutation
    simp [h]
  · intro h
    unfold uniformMutation at h ⊢
    dsimp only at h ⊢
    rcases hf : (mutateParams rate strength rng ind.parameters 0).2 with _ | _
    · exact absurd (mutateParams_flag_false_id rate strength rng ind.parameters 0 hf) h
    · simp [hf]

/-- Witness for the amended claim C8: with rate 0 the gate never fires and the
individual is returned unchanged; with the counterexample RNG the gate
fires and the evaluated flag is cleared. -/
theorem uniformMutation_invalidation_witness :
    uniformMutation 0 (1/5) (fun _ => 1/2) ⟨[1/2], 3/4, true⟩ = ⟨[1/2], 3/4, true⟩ ∧
    (uniformMutation (1/10) (1/5) (fun k => if k = 0 then 0 else 9/10)
        ⟨[1/2], 3/4, true⟩).evaluated = false :=
  ⟨(uniformMutation_invalidation 0 (1/5) (fun _ => 1/2) ⟨[1/2], 3/4, true⟩).1
      (by norm_num [mutateParams]),
   (uniformMutation_invalidation (1/10) (1/5) (fun k => if k = 0 then 0 else 9/10)
      ⟨[1/2], 3/4, true⟩).2.1 (by norm_num [mutateParams])⟩

/-! ### Population statistics lemmas (C9) -/

lemma enumFrom_foldl_statsStep :
    ∀ (inds : List Individual) (n : ℕ) (a : StatsAcc),
      (List.enumFrom n inds).foldl statsStep a =
        (((List.enumFrom n inds).filter (fun p => p.2.evaluated)).map
          (fun p => (p.1, p.2.fitness))).foldl pairStep a := by
  intro inds
  induction inds with
  | nil => intro n a; rfl
  | cons x xs ih =>
    intro n a
    by_cases hx : x.evaluated
    · simp only [List.enumFrom, List.foldl, List.filter, hx, List.map]
      rw [ih]
      have hstep : statsStep a (n, x) = pairStep a (n, x.fitness) := by
        simp [statsStep, pairStep, hx]
      rw [hstep]
    · simp only [List.enumFrom, List.foldl, List.filter]
      rw [ih]
      have hstep : statsStep a (n, x) = a := by
        simp [statsStep, hx]
      rw [hstep]
      simp [hx]

lemma updateStatistics_eq_statsFromPairs (inds : List Individual) :
    updateStatistics inds = statsFromPairs (indexedEvaluated inds) := by
  cases inds with
  | nil => rfl
  | cons x xs =>
    unfold updateStatistics statsFromPairs indexedEvaluated
    simp only [List.isEmpty_cons, List.enum]
    rw [enumFrom_foldl_statsStep]
    rfl

/-- Claim C9: population statistics are computed over evaluated individuals
only: the cached statistics are a function of the `(index, fitness)` pairs
of the evaluated individuals alone, and when no individual is evaluated
both the average and the worst fitness are 0. -/
theorem updateStatistics_evaluated_only (inds : List Individual) :
    updateStatistics inds = statsFromPairs (indexedEvaluated inds) ∧
    ((∀ i ∈ inds, i.evaluated = false) →
      (updateStatistics inds).avgFitness = 0 ∧ (updateStatistics inds).worstFitness = 0) := by
  refine ⟨updateStatistics_eq_statsFromPairs inds, ?_⟩
  intro hall
  have hie : indexedEvaluated inds = [] := by
    unfold indexedEvaluated
    have : (inds.enum.filter (fun p => p.2.evaluated)) = [] := by
      rw [List.filter_eq_nil_iff]
      intro p hp
      have hmem : p.2 ∈ inds := by
        have h2 := List.mem_enum_iff_getElem?.mp hp
        rw [List.getElem?_eq_some] at h2
        obtain ⟨h1, h2⟩ := h2
        exact h2 ▸ List.getElem_mem h1
      simp [hall p.2 hmem]
    rw [this]
    rfl
  rw [updateStatistics_eq_statsFromPairs inds, hie]
  exact ⟨rfl, rfl⟩

/-- Witness for claim C9: a population whose only individual is unevaluated
has average and worst fitness 0. -/
theorem updateStatistics_witness :
    (updateStatistics [⟨[0], 3, false⟩]).avgFitness = 0 ∧
    (updateStatistics [⟨[0], 3, false⟩]).worstFitness = 0 :=
  (updateStatistics_evaluated_only [⟨[0], 3, false⟩]).2
    (by intro i hi; simp at hi; rw [hi])

/-! ### MLP lemmas (C1, C2, C3) -/

lemma getD_replicate_zero (n j : ℕ) : (List.replicate n (0:ℚ)).getD j 0 = 0 := by
  rw [List.getD_eq_getElem?_getD, List.getElem?_replicate]
  split <;> rfl

lemma sum_mul_replicate_zero (aH : List ℚ) (h : ℕ) :
    ((List.range h).map (fun j => aH.getD j 0 * (List.replicate h (0:ℚ)).getD j 0)).sum = 0 := by
  apply List.sum_eq_zero
  intro x hx
  obtain ⟨j, _, rfl⟩ := List.mem_map.mp hx
  rw [getD_replicate_zero, mul_zero]

/-- Claim C1: a freshly constructed network (hidden→output weights and all
biases zero, no training, no weights loaded) predicts exactly 0.5 for every
input, whatever the Xavier draws for the input→hidden layer were.  The only
fact needed about `exp` is `exp 0 = 1`, which holds exactly in IEEE
arithmetic as well. -/
theorem freshMLP_predicts_half (E : ℚ → ℚ) (hE : E 0 = 1)
    (inputSize hiddenSize : ℕ) (xavierDraws input : List ℚ) :
    ((freshMLP inputSize hiddenSize xavierDraws).predict E input).1 = 1/2 := by
  unfold MLP.predict freshMLP
  dsimp only
  rw [sum_mul_replicate_zero, add_zero, sigmoid, neg_zero, hE]
  norm_num

/-- Witness for claim C1 at a concrete architecture, draw list and input. -/
theorem freshMLP_predicts_half_witness :
    ((freshMLP 2 2 [1/4, 1/3]).predict (fun _ => 1) [1/2, 1/2]).1 = 1/2 :=
  freshMLP_predicts_half (fun _ => 1) rfl 2 2 [1/4, 1/3] [1/2, 1/2]

/-- Claim C2: `setWeights` on a vector whose length differs from
`getWeightCount` returns false and leaves the entire network state —
weights, biases, optimizer moments, timestep — unchanged, so `predict`
returns the same value as before for every input. -/
theorem setWeights_wrong_length (m : MLP) (w : List ℚ)
    (hw : w.length ≠ m.getWeightCount) :
    m.setWeights w = (false, m) ∧
    ∀ (E : ℚ → ℚ) (input : List ℚ),
      ((m.setWeights w).2.predict E input).1 = (m.predict E input).1 := by
  have h1 : m.setWeights w = (false, m) := by
    unfold MLP.setWeights
    rw [if_pos hw]
  exact ⟨h1, fun E input => by rw [h1]⟩

/-- Witness for claim C2: the empty vector is rejected by a 1×1 network and
its prediction is unchanged. -/
theorem setWeights_wrong_length_witness :
    (freshMLP 1 1 []).setWeights [] = (false, freshMLP 1 1 []) ∧
    (((freshMLP 1 1 []).setWeights []).2.predict (fun _ => 1) [1/2]).1 =
      ((freshMLP 1 1 []).predict (fun _ => 1) [1/2]).1 :=
  ⟨(setWeights_wrong_length (freshMLP 1 1 []) [] (by decide)).1,
   (setWeights_wrong_length (freshMLP 1 1 []) [] (by decide)).2 (fun _ => 1) [1/2]⟩

lemma ratTruncToInt_intCast (t : ℤ) : ratTruncToInt (t : ℚ) = t := by
  unfold ratTruncToInt
  split
  · exact Int.floor_intCast t
  · rw [← Int.cast_neg, Int.floor_intCast]
    omega

lemma getWeights_length (m : MLP) (hwf : m.WellFormed) :
    m.getWeights.length = m.getWeightCount := by
  obtain ⟨h1, h2, h3, h4, h5, h6, h7, h8, h9⟩ := hwf
  simp [MLP.getWeights, MLP.getWeightCount, h1, h2, h3, h4, h5, h6, h7, h8, h9]
  ring

lemma setWeights_getWeights_eq (m1 m2 : MLP)
    (hn : m2.inputSize = m1.inputSize) (hh : m2.hiddenSize = m1.hiddenSize)
    (hwf : m1.WellFormed) :
    m2.setWeights m1.getWeights = (true,
      { m2 with
        weightsIH := m1.weightsIH, biasH := m1.biasH, weightsHO := m1.weightsHO
        biasO := m1.biasO
        mIH := m1.mIH, mBiasH := m1.mBiasH, mHO := m1.mHO, mBiasO := m1.mBiasO
        vIH := m1.vIH, vBiasH := m1.vBiasH, vHO := m1.vHO, vBiasO := m1.vBiasO
        timestep := m1.timestep }) := by
  have hcount : m2.getWeightCount = m1.getWeightCount := by
    simp [MLP.getWeightCount, hn, hh]
  have hlen : m1.getWeights.length = m2.getWeightCount :=
    (getWeights_length m1 hwf).trans hcount.symm
  obtain ⟨h1, h2, h3, h4, h5, h6, h7, h8, h9⟩ := hwf
  unfold MLP.setWeights
  rw [if_neg (by rw [hlen]; exact fun h => h rfl)]
  dsimp only
  rw [hn, hh]
  unfold MLP.getWeights
  rw [List.take_left' h1, List.drop_left' h1,
      List.take_left' h2, List.drop_left' h2,
      List.take_left' h3, List.drop_left' h3]
  rw [List.singleton_append, List.getD_cons_zero, List.drop_succ_cons, List.drop_zero]
  rw [List.take_left' h4, List.drop_left' h4,
      List.take_left' h5, List.drop_left' h5,
      List.take_left' h6, List.drop_left' h6]
  rw [List.singleton_append, List.getD_cons_zero, List.drop_succ_cons, List.drop_zero]
  rw [List.take_left' h7, List.drop_left' h7,
      List.take_left' h8, List.drop_left' h8,
      List.take_left' h9, List.drop_left' h9]
  rw [List.singleton_append, List.getD_cons_zero, List.drop_succ_cons, List.drop_zero]
  rw [List.getD_cons_zero, ratTruncToInt_intCast]

/-- Claim C3: for any two networks of the same architecture,
`setWeights (getWeights())` succeeds and restores the full learnable state —
weights, biases, both Adam moment sets and the timestep — so the second
network returns the same prediction as the first for every input. -/
theorem getWeights_setWeights_roundtrip (m1 m2 : MLP)
    (hn : m2.inputSize = m1.inputSize) (hh : m2.hiddenSize = m1.hiddenSize)
    (hwf : m1.WellFormed) :
    (m2.setWeights m1.getWeights).1 = true ∧
    ((m2.setWeights m1.getWeights).2.weightsIH = m1.weightsIH ∧
     (m2.setWeights m1.getWeights).2.biasH = m1.biasH ∧
     (m2.setWeights m1.getWeights).2.weightsHO = m1.weightsHO ∧
     (m2.setWeights m1.getWeights).2.biasO = m1.biasO ∧
     (m2.setWeights m1.getWeights).2.mIH = m1.mIH ∧
     (m2.setWeights m1.getWeights).2.mBiasH = m1.mBiasH ∧
     (m2.setWeights m1.getWeights).2.mHO = m1.mHO ∧
     (m2.setWeights m1.getWeights).2.mBiasO = m1.mBiasO ∧
     (m2.setWeights m1.getWeights).2.vIH = m1.vIH ∧
     (m2.setWeights m1.getWeights).2.vBiasH = m1.vBiasH ∧
     (m2.setWeights m1.getWeights).2.vHO = m1.vHO ∧
     (m2.setWeights m1.getWeights).2.vBiasO = m1.vBiasO ∧
     (m2.setWeights m1.getWeights).2.timestep = m1.timestep) ∧
    ∀ (E : ℚ → ℚ) (input : List ℚ),
      ((m2.setWeights m1.getWeights).2.predict E input).1 = (m1.predict E input).1 := by
  have hset := setWeights_getWeights_eq m1 m2 hn hh hwf
  rw [hset]
  refine ⟨rfl, ⟨rfl, rfl, rfl, rfl, rfl, rfl, rfl, rfl, rfl, rfl, rfl, rfl, rfl⟩, ?_⟩
  intro E input
  unfold MLP.predict
  dsimp only
  rw [hn, hh]

/-- Witness for claim C3: a trained-looking 1×1 network round-trips its
prediction through a fresh network of the same architecture. -/
theorem getWeights_setWeights_roundtrip_witness :
    ((freshMLP 1 1 []).setWeights (freshMLP 1 1 [1/4]).getWeights).1 = true ∧
    (((freshMLP 1 1 []).setWeights (freshMLP 1 1 [1/4]).getWeights).2.predict
        (fun _ => 1) [1/3]).1 =
      ((freshMLP 1 1 [1/4]).predict (fun _ => 1) [1/3]).1 :=
  ⟨(getWeights_setWeights_roundtrip (freshMLP 1 1 [1/4]) (freshMLP 1 1 []) rfl rfl
      (by simp [MLP.WellFormed, freshMLP])).1,
   (getWeights_setWeights_roundtrip (freshMLP 1 1 [1/4]) (freshMLP 1 1 []) rfl rfl
      (by simp [MLP.WellFormed, freshMLP])).2.2 (fun _ => 1) [1/3]⟩

/-! ### AudioFeatureCache lemmas (C7) -/

lemma length_eraseP_of_lookup (k : ℕ) (entries : List (ℕ × List ℚ)) (v : List ℚ)
    (h : lookupCache k entries = some v) :
    (entries.eraseP (fun e => e.1 == k)).length + 1 = entries.length := by
  unfold lookupCache at h
  rcases hf : entries.find? (fun e => e.1 == k) with _ | a
  · rw [hf] at h; exact absurd h (by simp)
  · have hmem := List.mem_of_find?_eq_some hf
    have hpa := List.find?_some hf
    obtain ⟨c, l1, l2, _, _, hdecomp, herase⟩ :=
      @List.exists_of_eraseP _ (fun e => e.1 == k) entries a hmem hpa
    rw [herase, hdecomp]
    simp
    omega

lemma getFeatures_length_le (hash : List ℚ → ℕ) (extract : List ℚ → List ℚ)
    (st : CacheState) (g : List ℚ) (h : st.entries.length ≤ maxCacheSize) :
    (getFeatures hash extract st g).2.entries.length ≤ maxCacheSize := by
  rcases hlk : lookupCache (hash g) st.entries with _ | v
  · unfold getFeatures
    dsimp only
    rw [hlk]
    by_cases hc : st.entries.length ≥ maxCacheSize
    · rw [if_pos hc]
      have hd : st.entries.dropLast.length = st.entries.length - 1 :=
        List.length_dropLast st.entries
      simp only [evictLRU, List.length_cons, hd, maxCacheSize] at *
      omega
    · rw [if_neg hc]
      simp only [List.length_cons, maxCacheSize] at *
      omega
  · unfold getFeatures
    dsimp only
    rw [hlk]
    have := length_eraseP_of_lookup (hash g) st.entries v hlk
    simp only [List.length_cons]
    omega

lemma runGetFeatures_length_le (hash : List ℚ → ℕ) (extract : List ℚ → List ℚ)
    (gs : List (List ℚ)) :
    ∀ st : CacheState, st.entries.length ≤ maxCacheSize →
      (runGetFeatures hash extract st gs).entries.length ≤ maxCacheSize := by
  induction gs with
  | nil => intro st h; exact h
  | cons g gs ih =>
    intro st h
    exact ih _ (getFeatures_length_le hash extract st g h)

/-- Claim C7: after any sequence of `getFeatures` calls the cache holds at
most its capacity of 128 entries; a hit moves its key to most recently
used; and an insertion with the cache exactly at capacity evicts precisely
the least-recently-used entry (the back of the recency order). -/
theorem cache_capacity_lru (hash : List ℚ → ℕ) (extract : List ℚ → List ℚ)
    (st : CacheState) (gs : List (List ℚ)) (g : List ℚ) :
    (st.entries.length ≤ maxCacheSize →
      (runGetFeatures hash extract st gs).entries.length ≤ maxCacheSize) ∧
    (runGetFeatures hash extract ⟨[]⟩ gs).entries.length ≤ maxCacheSize ∧
    (∀ v, lookupCache (hash g) st.entries = some v →
      (getFeatures hash extract st g).2.entries =
        (hash g, v) :: st.entries.eraseP (fun e => e.1 == hash g)) ∧
    (lookupCache (hash g) st.entries = none → st.entries.length = maxCacheSize →
      (getFeatures hash extract st g).2.entries =
        (hash g, extract g) :: st.entries.dropLast) := by
  refine ⟨runGetFeatures_length_le hash extract gs st, ?_, ?_, ?_⟩
  · exact runGetFeatures_length_le hash extract gs ⟨[]⟩ (by simp [maxCacheSize])
  · intro v hv
    unfold getFeatures
    dsimp only
    rw [hv]
  · intro hnone hcap
    unfold getFeatures
    dsimp only
    rw [hnone]
    dsimp only
    rw [if_pos (by rw [hcap] : st.entries.length ≥ maxCacheSize)]
    rfl

/-- Witness for claim C7: two insertions into an empty cache stay within
capacity, and a hit on a singleton cache moves the key to the front. -/
theorem cache_capacity_lru_witness :
    (runGetFeatures (fun g => g.length) (fun g => g) ⟨[]⟩
        [[1], [1/2]]).entries.length ≤ maxCacheSize ∧
    (getFeatures (fun g => g.length) (fun g => g) ⟨[(1, [1])]⟩ [1/2]).2.entries =
      ((1 : ℕ), ([1] : List ℚ)) ::
        ([((1 : ℕ), ([1] : List ℚ))].eraseP (fun e => e.1 == 1)) :=
  ⟨(cache_capacity_lru (fun g => g.length) (fun g => g) ⟨[]⟩ [[1], [1/2]] [1]).1
      (by simp [maxCacheSize]),
   (cache_capacity_lru (fun g => g.length) (fun g => g) ⟨[(1, [1])]⟩ [] [1/2]).2.2.1
      [1] rfl⟩

/-! ### Replacement lemmas (C5) -/

lemma overwriteSlots_cons (pop : List Individual) (pr : ℕ × Individual)
    (tl : List (ℕ × Individual)) :
    overwriteSlots pop (pr :: tl) = overwriteSlots (pop.set pr.1 pr.2) tl := rfl

lemma length_overwriteSlots (pairs : List (ℕ × Individual)) :
    ∀ pop, (overwriteSlots pop pairs).length = pop.length := by
  induction pairs with
  | nil => intro pop; rfl
  | cons pr tl ih =>
    intro pop
    rw [overwriteSlots_cons, ih, List.length_set]

lemma getElem?_overwriteSlots_not_mem (pairs : List (ℕ × Individual)) :
    ∀ (pop : List Individual) (i : ℕ), i ∉ pairs.map Prod.fst →
      (overwriteSlots pop pairs)[i]? = pop[i]? := by
  induction pairs with
  | nil => intro pop i _; rfl
  | cons pr tl ih =>
    intro pop i hi
    simp only [List.map_cons, List.mem_cons, not_or] at hi
    rw [overwriteSlots_cons, ih _ i hi.2, List.getElem?_set_ne (Ne.symm hi.1)]

lemma getElem?_overwriteSlots_mem (pairs : List (ℕ × Individual)) :
    ∀ (pop : List Individual) (idx : ℕ) (v : Individual),
      (pairs.map Prod.fst).Nodup → (idx, v) ∈ pairs → idx < pop.length →
      (overwriteSlots pop pairs)[idx]? = some v := by
  induction pairs with
  | nil => intro pop idx v _ hmem _; exact absurd hmem (List.not_mem_nil _)
  | cons pr tl ih =>
    intro pop idx v hnd hmem hlt
    rw [List.map_cons] at hnd
    obtain ⟨hnotin, hndtl⟩ := List.nodup_cons.mp hnd
    rcases List.mem_cons.mp hmem with heq | htl
    · rw [overwriteSlots_cons]
      have hhead : pr.1 = idx := by rw [← heq]
      have hnin : idx ∉ tl.map Prod.fst := by rw [← hhead]; exact hnotin
      rw [getElem?_overwriteSlots_not_mem tl _ idx hnin, hhead]
      have hv : pr.2 = v := by rw [← heq]
      rw [hv]
      exact List.getElem?_set_self hlt
    · rw [overwriteSlots_cons]
      exact ih _ idx v hndtl htl (by rw [List.length_set]; exact hlt)

lemma getD_mem_of_lt (l : List (ℕ × ℚ)) (j : ℕ) (hj : j < l.length) :
    l.getD j (0, 0) ∈ l := by
  rw [List.getD_eq_getElem?_getD, List.getElem?_eq_getElem hj]
  exact List.getElem_mem hj

lemma indexedEvaluated_mem (pop : List Individual) :
    ∀ p ∈ indexedEvaluated pop,
      p.1 < pop.length ∧ pop[p.1]?.map Individual.evaluated = some true ∧
        pop[p.1]?.map Individual.fitness = some p.2 := by
  intro p hp
  unfold indexedEvaluated at hp
  obtain ⟨q, hq, rfl⟩ := List.mem_map.mp hp
  have hqe := List.of_mem_filter hq
  have hqm := List.mem_of_mem_filter hq
  have hget := List.mem_enum_iff_getElem?.mp hqm
  have hlt : q.1 < pop.length := by
    rcases List.getElem?_eq_some.mp hget with ⟨h1, _⟩
    exact h1
  refine ⟨hlt, ?_, ?_⟩ <;> rw [hget] <;> simp_all

lemma nodup_indexedEvaluated_fst (pop : List Individual) :
    ((indexedEvaluated pop).map Prod.fst).Nodup := by
  unfold indexedEvaluated
  have h1 : ((pop.enum.filter (fun p => p.2.evaluated)).map
      (fun p => (p.1, p.2.fitness))).map Prod.fst =
      (pop.enum.filter (fun p => p.2.evaluated)).map Prod.fst := by
    rw [List.map_map]; rfl
  rw [h1]
  exact (List.nodup_enum_map_fst pop).sublist
    ((List.filter_sublist pop.enum).map Prod.fst)

lemma length_indexedEvaluated (pop : List Individual) :
    (indexedEvaluated pop).length = evaluatedCount pop := by
  unfold indexedEvaluated evaluatedCount
  rw [List.length_map]
  have h2 : (pop.enum.filter (fun p => p.2.evaluated)).map Prod.snd =
      (pop.enum.map Prod.snd).filter (fun i => i.evaluated) := by
    induction pop.enum with
    | nil => rfl
    | cons x xs ih =>
      by_cases hx : x.2.evaluated <;> simp [List.filter_cons, hx, ih]
  have := congrArg List.length h2
  rw [List.length_map, List.enum_map_snd] at this
  rw [this]

lemma isEmpty_false_of_ne_nil {offspring : List Individual} (hne : offspring ≠ []) :
    offspring.isEmpty = false := by
  cases offspring with
  | nil => exact absurd rfl hne
  | cons _ _ => rfl

lemma replacementStep_eq (pop offspring : List Individual) (hne : offspring ≠ []) :
    replacementStep pop offspring =
      (overwriteSlots pop (List.zip
        (((sortedEvaluatedIndices pop).take
          (min offspring.length (sortedEvaluatedIndices pop).length)).map Prod.fst)
        (offspring.take (min offspring.length (sortedEvaluatedIndices pop).length))),
       true) := by
  unfold replacementStep
  rw [if_neg (by rw [isEmpty_false_of_ne_nil hne]; simp)]

/-- Claim C5: with a non-empty offspring batch, the replacement block
collects the evaluated individuals, sorts them ascending by fitness,
overwrites exactly the `min(|offspring|, |evaluated|)` lowest-fitness slots
with the offspring in order, marks the statistics dirty, and leaves every
other population slot untouched. -/
theorem replacement_overwrites_worst (pop offspring : List Individual)
    (hne : offspring ≠ []) :
    (replacementStep pop offspring).2 = true ∧
    (replacementStep pop offspring).1.length = pop.length ∧
    (sortedEvaluatedIndices pop).length = evaluatedCount pop ∧
    (((sortedEvaluatedIndices pop).take
        (min offspring.length (sortedEvaluatedIndices pop).length)).map Prod.fst).Nodup ∧
    (∀ i : ℕ, i < pop.length →
      i ∉ ((sortedEvaluatedIndices pop).take
        (min offspring.length (sortedEvaluatedIndices pop).length)).map Prod.fst →
      (replacementStep pop offspring).1[i]? = pop[i]?) ∧
    (∀ j : ℕ, j < min offspring.length (sortedEvaluatedIndices pop).length →
      (replacementStep pop offspring).1[((sortedEvaluatedIndices pop).getD j (0, 0)).1]? =
        offspring[j]?) ∧
    (∀ p ∈ (sortedEvaluatedIndices pop).take
        (min offspring.length (sortedEvaluatedIndices pop).length),
      ∀ q ∈ (sortedEvaluatedIndices pop).drop
        (min offspring.length (sortedEvaluatedIndices pop).length),
      p.2 ≤ q.2) ∧
    (∀ p ∈ sortedEvaluatedIndices pop,
      p.1 < pop.length ∧ pop[p.1]?.map Individual.evaluated = some true ∧
        pop[p.1]?.map Individual.fitness = some p.2) := by
  have hperm : List.Perm (sortedEvaluatedIndices pop) (indexedEvaluated pop) :=
    List.perm_insertionSort _ _
  have hsorted : List.Sorted (fun a b => a.2 ≤ b.2) (sortedEvaluatedIndices pop) :=
    List.sorted_insertionSort _ _
  have hmemS : ∀ p ∈ sortedEvaluatedIndices pop,
      p.1 < pop.length ∧ pop[p.1]?.map Individual.evaluated = some true ∧
        pop[p.1]?.map Individual.fitness = some p.2 :=
    fun p hp => indexedEvaluated_mem pop p (hperm.mem_iff.mp hp)
  have hndS : ((sortedEvaluatedIndices pop).map Prod.fst).Nodup :=
    ((hperm.map Prod.fst).nodup_iff).mpr (nodup_indexedEvaluated_fst pop)
  have hSlen : (sortedEvaluatedIndices pop).length = evaluatedCount pop :=
    hperm.length_eq.trans (length_indexedEvaluated pop)
  set S := sortedEvaluatedIndices pop with hSdef
  set k := min offspring.length S.length with hkdef
  have hkS : k ≤ S.length := Nat.min_le_right _ _
  have hkO : k ≤ offspring.length := Nat.min_le_left _ _
  have hasfst : ((S.take k).map Prod.fst).Nodup :=
    hndS.sublist ((S.take_sublist k).map Prod.fst)
  have hastake : ((S.take k).map Prod.fst).length = k := by
    rw [List.length_map, List.length_take]
    omega
  have hbstake : (offspring.take k).length = k := by
    rw [List.length_take]
    omega
  have hpairsfst : (List.zip ((S.take k).map Prod.fst) (offspring.take k)).map Prod.fst =
      (S.take k).map Prod.fst := by
    apply List.map_fst_zip
    rw [hastake, hbstake]
  have hres := replacementStep_eq pop offspring hne
  refine ⟨by rw [hres], ?_, hSlen, hasfst, ?_, ?_, ?_, hmemS⟩
  · rw [hres]
    exact length_overwriteSlots _ pop
  · intro i _ hnotin
    rw [hres]
    apply getElem?_overwriteSlots_not_mem
    rw [hpairsfst]
    exact hnotin
  · intro j hj
    have hjS : j < S.length := lt_of_lt_of_le hj hkS
    have hjO : j < offspring.length := lt_of_lt_of_le hj hkO
    have hSj : S.getD j (0, 0) = S[j] := by
      rw [List.getD_eq_getElem?_getD, List.getElem?_eq_getElem hjS]
      rfl
    have hSjmem : S[j] ∈ S := List.getElem_mem hjS
    have hidxlt : S[j].1 < pop.length := (hmemS _ hSjmem).1
    have haj : ((S.take k).map Prod.fst)[j]? = some S[j].1 := by
      rw [List.getElem?_map, List.getElem?_take, if_pos hj, List.getElem?_eq_getElem hjS]
      rfl
    have hbj : (offspring.take k)[j]? = some offspring[j] := by
      rw [List.getElem?_take, if_pos hj, List.getElem?_eq_getElem hjO]
    have hzmem : (S[j].1, offspring[j]) ∈
        List.zip ((S.take k).map Prod.fst) (offspring.take k) := by
      have : (List.zip ((S.take k).map Prod.fst) (offspring.take k))[j]? =
          some (S[j].1, offspring[j]) := by
        rw [List.getElem?_zip_eq_some]
        exact ⟨haj, hbj⟩
      rcases List.getElem?_eq_some.mp this with ⟨hlt2, heq2⟩
      exact heq2 ▸ List.getElem_mem hlt2
    rw [hres]
    dsimp only
    rw [hSj]
    rw [getElem?_overwriteSlots_mem _ pop S[j].1 offspring[j] (by rw [hpairsfst]; exact hasfst)
      hzmem hidxlt]
    rw [List.getElem?_eq_getElem hjO]
  · intro p hp q hq
    exact hsorted.rel_of_mem_take_of_mem_drop hp hq

/-- Witness for claim C5 on a concrete population and offspring batch: the
dirty flag is set, the statistics count matches, the single evaluated worst
slot receives the offspring and the untouched slot keeps its value. -/
theorem replacement_overwrites_worst_witness :
    (replacementStep [⟨[0], 5, true⟩, ⟨[0], 1, false⟩] [⟨[1], 9, true⟩]).2 = true ∧
    (replacementStep [⟨[0], 5, true⟩, ⟨[0], 1, false⟩] [⟨[1], 9, true⟩]).1[1]? =
      ([⟨[0], 5, true⟩, ⟨[0], 1, false⟩] : List Individual)[1]? :=
  ⟨(replacement_overwrites_worst [⟨[0], 5, true⟩, ⟨[0], 1, false⟩] [⟨[1], 9, true⟩]
      (by simp)).1,
   (replacement_overwrites_worst [⟨[0], 5, true⟩, ⟨[0], 1, false⟩] [⟨[1], 9, true⟩]
      (by simp)).2.2.2.2.1 1 (by simp)
      (by norm_num [sortedEvaluatedIndices, indexedEvaluated, List.insertionSort,
        List.enum, List.enumFrom, List.orderedInsert])⟩

/-! ### Backpressure (C6) -/

/-- Claim C6: in any trip of the steady-state loop body that observes
`hasData() = true`, the engine performs no push and produces no offspring —
the bridge and the population are left untouched — and, unless the trip was
diverted earlier by the pause flag or an exit request, it ends in the
bounded backoff wait.  Together with the single-slot mailbox bridge this
keeps at most one unread candidate pending for the consumer. -/
theorem backpressure_no_push (paused exitB exitC exitAfterGen : Bool)
    (batch pop : List Individual) (bridge : Bridge)
    (h : bridge.hasData = true) :
    (gaIteration paused exitB exitC exitAfterGen batch pop bridge).pushed = false ∧
    (gaIteration paused exitB exitC exitAfterGen batch pop bridge).offspringProduced = 0 ∧
    (gaIteration paused exitB exitC exitAfterGen batch pop bridge).bridge = bridge ∧
    (gaIteration paused exitB exitC exitAfterGen batch pop bridge).population = pop ∧
    (paused = false → exitB = false → exitC = false →
      (gaIteration paused exitB exitC exitAfterGen batch pop bridge).outcome =
        IterOutcome.waitedBackoff) := by
  unfold gaIteration
  cases paused <;> cases exitB <;> cases exitC <;> simp [h]

/-- Witness for claim C6: a loaded bridge makes the loop back off. -/
theorem backpressure_no_push_witness :
    (gaIteration false false false false [] [] ⟨some ([1], 1/2)⟩).pushed = false ∧
    (gaIteration false false false false [] [] ⟨some ([1], 1/2)⟩).outcome =
      IterOutcome.waitedBackoff :=
  ⟨(backpressure_no_push false false false false [] [] ⟨some ([1], 1/2)⟩ rfl).1,
   (backpressure_no_push false false false false [] [] ⟨some ([1], 1/2)⟩ rfl).2.2.2.2
     rfl rfl rfl⟩
